import Mathlib

/-!
# Verification of the tic-tac-toe game core

Shallow embedding of the game logic of `src/utils/gameLogic.ts`, the
constants of `src/constants/game.ts` and the state controller of
`src/hooks/useGameState.ts`, together with proofs of the specified
properties (winner evaluation, draw detection, move validation and
application, turn derivation, and the history/cursor state machine).

Modelling conventions:
- a JS `SquareValue` (`'X' | 'O' | null`) is `Option Player`, `none` = `null`;
- a JS `Board` (array of square values) is a `List SquareValue`; JS index
  access `squares[i]` that may fall outside the array is `List.get?`
  (`none` = `undefined`);
- a JS index argument of type `number` is an `Int`, so that negative
  indices are representable;
- a function that can `throw` returns an `Option` (`none` = exception);
- the React `useState` cell holding the `GameState` is explicit state
  passing: each hook callback becomes a function `GameState → ... → GameState`.
-/

namespace TicTacToe

/-- `type Player = 'X' | 'O'` from `src/types/game.ts`. -/
inductive Player where
  | X : Player
  | O : Player
deriving DecidableEq, Fintype, Repr

/-- `type SquareValue = Player | null` from `src/types/game.ts`. -/
abbrev SquareValue := Option Player

/-- `type Board = SquareValue[]` from `src/types/game.ts`. -/
abbrev Board := List SquareValue

/-- `BOARD_SIZE = 9` from `src/constants/game.ts`. -/
def BOARD_SIZE : Nat := 9

/-- `WINNING_COMBINATIONS` from `src/constants/game.ts`: the 8 fixed
line triples, in source order: top row, middle row, bottom row, left
column, middle column, right column, main diagonal, anti-diagonal. -/
def WINNING_COMBINATIONS : List (Nat × Nat × Nat) :=
  [(0, 1, 2), (3, 4, 5), (6, 7, 8),
   (0, 3, 6), (1, 4, 7), (2, 5, 8),
   (0, 4, 8), (2, 4, 6)]

/-- JS element access `squares[i]` as used by `calculateWinner`, where
both `null` (stored empty cell) and `undefined` (out-of-range access)
are falsy and compare unequal to any `Player`: both collapse to `none`. -/
def cellAt (squares : Board) (i : Nat) : SquareValue :=
  (squares.get? i).getD none

/-- `interface WinnerResult` from `src/utils/gameLogic.ts`. -/
structure WinnerResult where
  winner : Option Player
  winningLine : Option (List Nat)
deriving DecidableEq, Repr

/-- The loop-body test of `calculateWinner`:
`squares[a] && squares[a] === squares[b] && squares[a] === squares[c]`. -/
def lineWins (squares : Board) (a b c : Nat) : Bool :=
  match cellAt squares a with
  | some p => decide (cellAt squares b = some p) && decide (cellAt squares c = some p)
  | none => false

/-- The `for (const line of WINNING_COMBINATIONS)` loop of
`calculateWinner`, recursing over the remaining lines: the first line
whose three cells hold the same mark yields `{winner: squares[a],
winningLine: line}`; exhaustion yields `{winner: null, winningLine: null}`. -/
def findWinner (squares : Board) : List (Nat × Nat × Nat) → WinnerResult
  | [] => ⟨none, none⟩
  | (a, b, c) :: rest =>
    if lineWins squares a b c then ⟨cellAt squares a, some [a, b, c]⟩
    else findWinner squares rest

/-- `calculateWinner` from `src/utils/gameLogic.ts` (lines 17-40). -/
def calculateWinner (squares : Board) : WinnerResult :=
  findWinner squares WINNING_COMBINATIONS

/-- `isDraw` from `src/utils/gameLogic.ts` (lines 47-50):
`!winner && squares.every(square => square !== null)`. -/
def isDraw (squares : Board) : Bool :=
  (calculateWinner squares).winner.isNone &&
    squares.all (fun square => decide (square ≠ none))

/-- `isValidMove` from `src/utils/gameLogic.ts` (lines 58-60):
`index >= 0 && index < BOARD_SIZE && squares[index] === null`.
Note the strict equality with `null`: an in-range index beyond the
array's actual length reads `undefined`, which is not `null`, so the
last conjunct demands `squares.get? index.toNat = some none`. -/
def isValidMove (squares : Board) (index : Int) : Bool :=
  decide (0 ≤ index) && decide (index < (BOARD_SIZE : Int)) &&
    decide (squares.get? index.toNat = some none)

/-- `makeMove` from `src/utils/gameLogic.ts` (lines 69-77): re-validates,
throws (`none`) on an invalid move, otherwise copies the board
(`[...squares]`) and sets cell `index` to `player`. -/
def makeMove (squares : Board) (index : Int) (player : Player) : Option Board :=
  if isValidMove squares index then
    some (squares.set index.toNat (some player))
  else
    none

/-- `createEmptyBoard` from `src/utils/gameLogic.ts` (lines 83-85). -/
def createEmptyBoard : Board := List.replicate BOARD_SIZE none

/-- `getMoveCount` from `src/utils/gameLogic.ts` (lines 114-116):
`squares.filter(square => square !== null).length`. -/
def getMoveCount (squares : Board) : Nat :=
  (squares.filter (fun square => decide (square ≠ none))).length

/-- `getCurrentPlayer` from `src/utils/gameLogic.ts` (lines 123-126):
even move count means X's turn, odd means O's turn. -/
def getCurrentPlayer (squares : Board) : Player :=
  if getMoveCount squares % 2 = 0 then Player.X else Player.O

/-- `interface GameState` from `src/types/game.ts`. -/
structure GameState where
  history : List Board
  currentMove : Nat
  winner : Option Player
  isDraw : Bool
deriving DecidableEq, Repr

/-- The `useState` initializer of `useGameState`:
`{history: [createEmptyBoard()], currentMove: 0, winner: null, isDraw: false}`. -/
def initialState : GameState :=
  { history := [createEmptyBoard], currentMove := 0, winner := none, isDraw := false }

/-- The memoized `currentSquares` of `useGameState`:
`gameState.history[gameState.currentMove] || createEmptyBoard()`. -/
def currentSquaresOf (s : GameState) : Board :=
  (s.history.get? s.currentMove).getD createEmptyBoard

/-- `handleSquareClick` from `src/hooks/useGameState.ts`.  The guard uses
the memoized derived values `winner` / `isGameDraw` (recomputed from
`currentSquares`, where `isGameDraw` is `winner ? false : isDraw(...)`),
not the stored fields.  An accepted move truncates the history to
`slice(0, currentMove + 1)`, pushes the new board, and stores the new
cursor and the winner/draw evaluation of the new board.  The `catch`
branch (unreachable after a successful validity check) leaves the state
unchanged. -/
def handleSquareClick (s : GameState) (index : Int) : GameState :=
  let currentSquares := currentSquaresOf s
  let winner := (calculateWinner currentSquares).winner
  let isGameDraw := if winner.isSome then false else isDraw currentSquares
  if winner.isSome || isGameDraw || !(isValidMove currentSquares index) then s
  else
    match makeMove currentSquares index (getCurrentPlayer currentSquares) with
    | none => s
    | some newSquares =>
      let newWinner := calculateWinner newSquares
      let newIsDraw := isDraw newSquares
      let newHistory := s.history.take (s.currentMove + 1) ++ [newSquares]
      { history := newHistory
        currentMove := newHistory.length - 1
        winner := newWinner.winner
        isDraw := newIsDraw }

/-- `jumpToMove` from `src/hooks/useGameState.ts`: a warning plus no-op
when `move < 0 || move >= history.length` (or when the defensive
`!targetSquares` check fires), otherwise sets the cursor and stores the
winner/draw evaluation of `history[move]`, spreading the previous state
(so the history itself is untouched). -/
def jumpToMove (s : GameState) (move : Int) : GameState :=
  if move < 0 || (s.history.length : Int) ≤ move then s
  else
    match s.history.get? move.toNat with
    | none => s
    | some targetSquares =>
      { s with currentMove := move.toNat
               winner := (calculateWinner targetSquares).winner
               isDraw := isDraw targetSquares }

/-- `resetGame` from `src/hooks/useGameState.ts`: unconditionally
reinstalls the initial state. -/
def resetGame (_s : GameState) : GameState := initialState

/-- The operations a caller of `useGameState` can invoke. -/
inductive GameOp where
  | click (index : Int)
  | jump (move : Int)
  | reset
deriving DecidableEq, Repr

/-- One controller step. -/
def applyOp (s : GameState) : GameOp → GameState
  | .click index => handleSquareClick s index
  | .jump move => jumpToMove s move
  | .reset => resetGame s

/-- Run a sequence of operations from the initial state. -/
def runOps (ops : List GameOp) : GameState :=
  ops.foldl applyOp initialState

/-- The state invariant maintained by the controller: the cursor is in
bounds, and the stored winner/draw fields equal the pure evaluation of
the board under the cursor. -/
def StateInv (s : GameState) : Prop :=
  s.currentMove < s.history.length ∧
  s.winner = (calculateWinner (currentSquaresOf s)).winner ∧
  s.isDraw = isDraw (currentSquaresOf s)

/-! ## Theorems -/

/-- C7: `makeMove` signals an error (here: returns `none`) exactly when
`isValidMove` fails on the given board and index — it re-validates
defensively — and never errs on a valid move. -/
theorem makeMove_none_iff_invalid (squares : Board) (index : Int) (player : Player) :
    makeMove squares index player = none ↔ isValidMove squares index = false := by
  unfold makeMove
  by_cases h : isValidMove squares index = true
  · simp [h]
  · simp [h, Bool.eq_false_iff.mpr h]

/-- C10: `jumpToMove` never changes the history sequence itself — neither
on rejection nor on an accepted in-bounds jump; only the cursor and the
derived winner/draw fields are updated, and truncation is left to the
next accepted click. -/
theorem jumpToMove_preserves_history (s : GameState) (m : Int) :
    (jumpToMove s m).history = s.history := by
  unfold jumpToMove
  split
  · rfl
  · split <;> rfl

/-- C9: on a 9-cell board, `isValidMove` accepts exactly the in-range
indices (`0 ≤ index < 9`) whose cell is empty; negative and too-large
indices yield `false` (and the model is a total function, so no
exception can arise). -/
theorem isValidMove_spec (squares : Board) (index : Int) (h : squares.length = 9) :
    isValidMove squares index = true ↔
      0 ≤ index ∧ index < 9 ∧ cellAt squares index.toNat = none := by
  unfold isValidMove cellAt
  simp only [Bool.and_eq_true, decide_eq_true_eq]
  constructor
  · rintro ⟨⟨h0, h9⟩, hc⟩
    refine ⟨h0, by exact_mod_cast h9, by rw [hc]; rfl⟩
  · rintro ⟨h0, h9, hc⟩
    refine ⟨⟨h0, by exact_mod_cast h9⟩, ?_⟩
    have hlt : index.toNat < squares.length := by rw [h]; omega
    cases hg : squares.get? index.toNat with
    | none => rw [List.get?_eq_none] at hg; omega
    | some v =>
      rw [hg, Option.getD_some] at hc
      rw [hc]

/-- Witness for C9 at the empty board and index 0. -/
theorem isValidMove_spec_witness : isValidMove createEmptyBoard 0 = true :=
  (isValidMove_spec createEmptyBoard 0 (by decide)).mpr ⟨by decide, by decide, by decide⟩

/-- C3: `isDraw` holds iff the winner evaluation yields no winner and
every cell is occupied; whenever a winner exists, `isDraw` is `false`
regardless of how full the board is. -/
theorem isDraw_spec (squares : Board) :
    (isDraw squares = true ↔
      (calculateWinner squares).winner = none ∧ ∀ c ∈ squares, c ≠ none) ∧
    ((calculateWinner squares).winner.isSome = true → isDraw squares = false) := by
  constructor
  · unfold isDraw
    simp [Option.isNone_iff_eq_none, List.all_eq_true]
  · intro hw
    unfold isDraw
    cases h : (calculateWinner squares).winner with
    | none => rw [h] at hw; simp at hw
    | some p => simp [h]

/-- Witness for C3: the board with a completed top row of X and an empty
rest has a winner, hence is not a draw. -/
theorem isDraw_spec_witness :
    isDraw [some Player.X, some Player.X, some Player.X,
            none, none, none, none, none, none] = false :=
  (isDraw_spec [some Player.X, some Player.X, some Player.X,
                none, none, none, none, none, none]).2 (by decide)

/-- C8: a valid `makeMove` returns the board with exactly the requested
cell set to the given mark: the cell at `index` holds the mark and every
other position is unchanged.  (The model is pure, mirroring the source's
copy-before-write `[...squares]`, so the input board is unmodified by
construction.) -/
theorem makeMove_frame (squares : Board) (index : Int) (player : Player)
    (h : isValidMove squares index = true) :
    makeMove squares index player = some (squares.set index.toNat (some player)) ∧
    (squares.set index.toNat (some player)).get? index.toNat = some (some player) ∧
    ∀ j : Nat, j ≠ index.toNat →
      (squares.set index.toNat (some player)).get? j = squares.get? j := by
  have hcell : squares.get? index.toNat = some none := by
    unfold isValidMove at h
    simp only [Bool.and_eq_true, decide_eq_true_eq] at h
    exact h.2
  have hlt : index.toNat < squares.length := by
    obtain ⟨hl, -⟩ := List.get?_eq_some.mp hcell
    exact hl
  refine ⟨by unfold makeMove; rw [if_pos h], ?_, ?_⟩
  · exact List.get?_set_eq_of_lt _ hlt
  · intro j hj
    exact List.get?_set_ne _ _ (fun he => hj he.symm)

/-- Witness for C8 at the empty board, index 0, player X (frame checked
at the untouched position 1). -/
theorem makeMove_frame_witness :
    makeMove createEmptyBoard 0 Player.X =
      some (createEmptyBoard.set 0 (some Player.X)) ∧
    (createEmptyBoard.set 0 (some Player.X)).get? 1 = createEmptyBoard.get? 1 :=
  ⟨(makeMove_frame createEmptyBoard 0 Player.X (by decide)).1,
   (makeMove_frame createEmptyBoard 0 Player.X (by decide)).2.2 1 (by decide)⟩

/-- A line triple wins exactly when its three cells carry one common
non-empty mark. -/
theorem lineWins_iff (squares : Board) (a b c : Nat) :
    lineWins squares a b c = true ↔
      ∃ p : Player, cellAt squares a = some p ∧ cellAt squares b = some p ∧
        cellAt squares c = some p := by
  unfold lineWins
  cases h : cellAt squares a with
  | none => simp [h]
  | some p => simp [h]

/-- The winner-scan loop returns, for the first line of the list whose
cells agree on a mark, that line together with the mark of its first
cell; if no line of the list matches, it returns no winner and no line. -/
theorem findWinner_eq_find? (squares : Board) (ls : List (Nat × Nat × Nat)) :
    findWinner squares ls =
      match ls.find? (fun l => lineWins squares l.1 l.2.1 l.2.2) with
      | some l => ⟨cellAt squares l.1, some [l.1, l.2.1, l.2.2]⟩
      | none => ⟨none, none⟩ := by
  induction ls with
  | nil => rfl
  | cons hd tl ih =>
    obtain ⟨a, b, c⟩ := hd
    rw [findWinner, List.find?_cons]
    by_cases h : lineWins squares a b c = true
    · simp [h]
    · have h' : lineWins squares a b c = false := Bool.eq_false_iff.mpr h
      simp [h', ih]

/-- C2: `calculateWinner` returns the mark and line of the first triple
of `WINNING_COMBINATIONS` (the fixed canonical order: three rows, three
columns, main diagonal, anti-diagonal) whose three cells are equal and
non-empty, and `(none, none)` when no triple matches. -/
theorem calculateWinner_spec (squares : Board) :
    calculateWinner squares =
      match WINNING_COMBINATIONS.find? (fun l =>
          decide (∃ p : Player, cellAt squares l.1 = some p ∧
            cellAt squares l.2.1 = some p ∧ cellAt squares l.2.2 = some p)) with
      | some l => ⟨cellAt squares l.1, some [l.1, l.2.1, l.2.2]⟩
      | none => ⟨none, none⟩ := by
  have hfun : (fun l : Nat × Nat × Nat => lineWins squares l.1 l.2.1 l.2.2) =
      (fun l : Nat × Nat × Nat =>
        decide (∃ p : Player, cellAt squares l.1 = some p ∧
          cellAt squares l.2.1 = some p ∧ cellAt squares l.2.2 = some p)) := by
    funext l
    by_cases h : ∃ p : Player, cellAt squares l.1 = some p ∧
        cellAt squares l.2.1 = some p ∧ cellAt squares l.2.2 = some p
    · rw [decide_eq_true h, (lineWins_iff squares l.1 l.2.1 l.2.2).mpr h]
    · rw [decide_eq_false h,
        Bool.eq_false_iff.mpr (fun hw => h ((lineWins_iff squares l.1 l.2.1 l.2.2).mp hw))]
  rw [calculateWinner, findWinner_eq_find? squares WINNING_COMBINATIONS, hfun]
  congr 1
  exact congrArg (fun q => List.find? q WINNING_COMBINATIONS)
    (funext fun l => decide_eq_decide.mpr Iff.rfl)

/-- Counterexample to C6 as stated: `makeMove` itself accepts an
arbitrary mark, so applying mark O to the empty board (where it is X's
turn) succeeds, yet the resulting board has one occupied cell and
`getCurrentPlayer` returns O — equal to the mark just placed, refuting
`currentPlayer(applyMove(b, i, m)) != m` for unrestricted `m`. -/
theorem getCurrentPlayer_alternation_counterexample :
    makeMove createEmptyBoard 0 Player.O =
      some (createEmptyBoard.set 0 (some Player.O)) ∧
    getCurrentPlayer (createEmptyBoard.set 0 (some Player.O)) = Player.O := by
  decide

/-- Setting an empty cell to a mark raises the move count by one. -/
theorem getMoveCount_set_empty (squares : Board) (n : Nat) (p : Player)
    (h : squares.get? n = some none) :
    getMoveCount (squares.set n (some p)) = getMoveCount squares + 1 := by
  induction squares generalizing n with
  | nil => simp [List.get?] at h
  | cons hd tl ih =>
    cases n with
    | zero =>
      simp only [List.get?] at h
      injection h with h
      subst h
      simp [getMoveCount, List.set, List.filter_cons]
    | succ n =>
      simp only [List.get?] at h
      have htl := ih n h
      simp only [List.set, getMoveCount, List.filter_cons, ne_eq, decide_not] at htl ⊢
      by_cases hhd : hd = none
      · simp [hhd, htl]
      · simp [hhd, htl]

/-- C6 (amended): when the mark placed is the one whose turn it is —
`getCurrentPlayer` of the input board, as the game controller always
passes — a successful `makeMove` flips the parity of the move count, so
`getCurrentPlayer` of the resulting board differs from the mark placed. -/
theorem getCurrentPlayer_alternates (squares : Board) (index : Int) (newSquares : Board)
    (h : makeMove squares index (getCurrentPlayer squares) = some newSquares) :
    getCurrentPlayer newSquares ≠ getCurrentPlayer squares := by
  unfold makeMove at h
  by_cases hv : isValidMove squares index = true
  · rw [if_pos hv] at h
    injection h with h
    subst h
    have hcell : squares.get? index.toNat = some none := by
      unfold isValidMove at hv
      simp only [Bool.and_eq_true, decide_eq_true_eq] at hv
      exact hv.2
    unfold getCurrentPlayer
    rw [getMoveCount_set_empty squares index.toNat _ hcell]
    by_cases hp : getMoveCount squares % 2 = 0
    · have hp1 : ¬((getMoveCount squares + 1) % 2 = 0) := by omega
      simp [hp, hp1]
    · have hp1 : (getMoveCount squares + 1) % 2 = 0 := by omega
      simp [hp, hp1]
  · rw [if_neg hv] at h
    exact absurd h (by simp)

/-- Witness for the amended C6: on the empty board it is X's turn;
placing X at cell 0 hands the turn to a different player. -/
theorem getCurrentPlayer_alternates_witness :
    getCurrentPlayer (createEmptyBoard.set 0 (some Player.X)) ≠
      getCurrentPlayer createEmptyBoard :=
  getCurrentPlayer_alternates createEmptyBoard 0
    (createEmptyBoard.set 0 (some Player.X)) (by decide)

/-- C4: `jumpToMove m` is a no-op exactly when `m < 0` or
`m ≥ length(history)`; for every in-bounds `m` it sets the cursor to `m`
and recomputes the winner and draw flags from `history[m]`, leaving the
rest of the state alone. -/
theorem jumpToMove_spec (s : GameState) (m : Int) :
    ((m < 0 ∨ (s.history.length : Int) ≤ m) → jumpToMove s m = s) ∧
    (0 ≤ m → m < (s.history.length : Int) →
      jumpToMove s m =
        { s with
            currentMove := m.toNat
            winner := (calculateWinner ((s.history.get? m.toNat).getD createEmptyBoard)).winner
            isDraw := isDraw ((s.history.get? m.toNat).getD createEmptyBoard) }) := by
  constructor
  · intro h
    unfold jumpToMove
    have hc : (decide (m < 0) || decide ((s.history.length : Int) ≤ m)) = true := by
      rcases h with h | h <;> simp [h]
    rw [if_pos hc]
  · intro h0 h1
    unfold jumpToMove
    have hc : (decide (m < 0) || decide ((s.history.length : Int) ≤ m)) = false := by
      simp only [Bool.or_eq_false_iff, decide_eq_false_iff_not, not_lt]
      omega
    rw [if_neg (by rw [hc]; exact Bool.false_ne_true)]
    have hlt : m.toNat < s.history.length := by omega
    cases hg : s.history.get? m.toNat with
    | none => rw [List.get?_eq_none] at hg; omega
    | some b => rfl

/-- Witness for C4: from the initial state, `jumpToMove (-1)` is a no-op
and `jumpToMove 0` lands the cursor on index 0. -/
theorem jumpToMove_spec_witness :
    jumpToMove initialState (-1) = initialState ∧
      (jumpToMove initialState 0).currentMove = 0 := by
  refine ⟨(jumpToMove_spec initialState (-1)).1 (Or.inl (by decide)), ?_⟩
  have h := (jumpToMove_spec initialState 0).2 (by decide) (by decide)
  rw [h]
  rfl

/-- The rejection branch of `handleSquareClick`: a winner, a draw, or a
failed validity check leaves the state untouched. -/
theorem handleSquareClick_rejected (s : GameState) (i : Int)
    (h : (calculateWinner (currentSquaresOf s)).winner.isSome = true ∨
      isDraw (currentSquaresOf s) = true ∨
      isValidMove (currentSquaresOf s) i = false) :
    handleSquareClick s i = s := by
  unfold handleSquareClick
  rcases h with h | h | h
  · simp [h]
  · by_cases hw : (calculateWinner (currentSquaresOf s)).winner.isSome = true
    · simp [hw]
    · simp [Bool.eq_false_iff.mpr hw, h]
  · simp [h]

/-- The acceptance branch of `handleSquareClick`: with no winner, no
draw and a valid index, the click produces the truncate-append state. -/
theorem handleSquareClick_accepted (s : GameState) (i : Int)
    (hw : (calculateWinner (currentSquaresOf s)).winner.isSome = false)
    (hd : isDraw (currentSquaresOf s) = false)
    (hv : isValidMove (currentSquaresOf s) i = true) :
    handleSquareClick s i =
      { history := s.history.take (s.currentMove + 1) ++
          [(currentSquaresOf s).set i.toNat
            (some (getCurrentPlayer (currentSquaresOf s)))]
        currentMove := (s.history.take (s.currentMove + 1)).length
        winner := (calculateWinner ((currentSquaresOf s).set i.toNat
            (some (getCurrentPlayer (currentSquaresOf s))))).winner
        isDraw := isDraw ((currentSquaresOf s).set i.toNat
            (some (getCurrentPlayer (currentSquaresOf s)))) } := by
  unfold handleSquareClick makeMove
  simp [hw, hd, hv]

/-- C1: `handleSquareClick i` is a no-op when the current board already
has a winner, is a draw, or fails `isValidMove`; otherwise it truncates
the history to indices `0..currentMove`, appends the board obtained by
placing the current player's mark at `i`, and advances the cursor to the
new last index — so `length(history) = currentMove + 1` holds
immediately after every accepted click. -/
theorem handleSquareClick_spec (s : GameState) (i : Int) :
    (((calculateWinner (currentSquaresOf s)).winner.isSome = true ∨
        isDraw (currentSquaresOf s) = true ∨
        isValidMove (currentSquaresOf s) i = false) →
      handleSquareClick s i = s) ∧
    ((calculateWinner (currentSquaresOf s)).winner = none →
      isDraw (currentSquaresOf s) = false →
      isValidMove (currentSquaresOf s) i = true →
      (handleSquareClick s i).history =
          s.history.take (s.currentMove + 1) ++
            [(currentSquaresOf s).set i.toNat
              (some (getCurrentPlayer (currentSquaresOf s)))] ∧
        (handleSquareClick s i).currentMove =
          (s.history.take (s.currentMove + 1)).length ∧
        (handleSquareClick s i).history.length =
          (handleSquareClick s i).currentMove + 1) := by
  refine ⟨handleSquareClick_rejected s i, ?_⟩
  intro hw hd hv
  have hws : (calculateWinner (currentSquaresOf s)).winner.isSome = false := by
    rw [hw]; rfl
  rw [handleSquareClick_accepted s i hws hd hv]
  refine ⟨rfl, rfl, by simp⟩

/-- Witness for C1: the first click on the empty board is accepted and
leaves a two-entry history with the cursor on the last index. -/
theorem handleSquareClick_spec_witness :
    (handleSquareClick initialState 0).history.length =
      (handleSquareClick initialState 0).currentMove + 1 :=
  ((handleSquareClick_spec initialState 0).2 (by decide) (by decide) (by decide)).2.2

/-- The initial state satisfies the invariant. -/
theorem stateInv_initial : StateInv initialState := by
  refine ⟨by decide, by decide, by decide⟩

/-- `handleSquareClick` preserves the invariant. -/
theorem stateInv_click (s : GameState) (i : Int) (h : StateInv s) :
    StateInv (handleSquareClick s i) := by
  by_cases hw : (calculateWinner (currentSquaresOf s)).winner.isSome = true
  · rw [handleSquareClick_rejected s i (Or.inl hw)]; exact h
  · by_cases hd : isDraw (currentSquaresOf s) = true
    · rw [handleSquareClick_rejected s i (Or.inr (Or.inl hd))]; exact h
    · by_cases hv : isValidMove (currentSquaresOf s) i = true
      · rw [handleSquareClick_accepted s i (Bool.eq_false_iff.mpr hw)
          (Bool.eq_false_iff.mpr hd) hv]
        refine ⟨by simp, ?_, ?_⟩ <;>
          · show _ = _
            unfold currentSquaresOf
            simp [List.get?_concat_length]
      · rw [handleSquareClick_rejected s i (Or.inr (Or.inr (Bool.eq_false_iff.mpr hv)))]
        exact h

/-- `jumpToMove` preserves the invariant. -/
theorem stateInv_jump (s : GameState) (m : Int) (h : StateInv s) :
    StateInv (jumpToMove s m) := by
  unfold jumpToMove
  split
  · exact h
  · rename_i hcond
    cases hg : s.history.get? m.toNat with
    | none => exact h
    | some b =>
      have hlt : m.toNat < s.history.length := by
        obtain ⟨hl, -⟩ := List.get?_eq_some.mp hg
        exact hl
      refine ⟨hlt, ?_, ?_⟩ <;>
        · show _ = _
          unfold currentSquaresOf
          rw [List.get?_eq_getElem?] at hg
          simp [hg]

/-- Any operation preserves the invariant. -/
theorem stateInv_applyOp (s : GameState) (op : GameOp) (h : StateInv s) :
    StateInv (applyOp s op) := by
  cases op with
  | click i => exact stateInv_click s i h
  | jump m => exact stateInv_jump s m h
  | reset => exact stateInv_initial

/-- The invariant holds after folding any operation list over any
invariant-satisfying start state. -/
theorem stateInv_foldl (ops : List GameOp) (s : GameState) (h : StateInv s) :
    StateInv (ops.foldl applyOp s) := by
  induction ops generalizing s with
  | nil => exact h
  | cons op rest ih =>
    rw [List.foldl_cons]
    exact ih (applyOp s op) (stateInv_applyOp s op h)

/-- C5: in every state reachable by any sequence of click, jump and
reset operations, the cursor is a valid history index and the stored
winner and draw fields equal the pure evaluation (`calculateWinner`,
`isDraw`) of the board at the cursor — they are never independently
settable. -/
theorem runOps_derived_fields (ops : List GameOp) :
    ∃ b : Board,
      (runOps ops).history.get? (runOps ops).currentMove = some b ∧
      (runOps ops).winner = (calculateWinner b).winner ∧
      (runOps ops).isDraw = isDraw b := by
  unfold runOps
  obtain ⟨hlt, hw, hd⟩ := stateInv_foldl ops initialState stateInv_initial
  have hg := List.get?_eq_get hlt
  refine ⟨_, hg, ?_, ?_⟩
  · rw [hw]; unfold currentSquaresOf; rw [hg]; rfl
  · rw [hd]; unfold currentSquaresOf; rw [hg]; rfl

end TicTacToe
